import Mathlib

/-!
Shallow embedding of the `brickatlas` log-watcher (src/src/lib.rs, src/src/main.rs).

The program tails a log file: `run` checks that the configured path exists,
registers a filesystem watch, opens the file, seeks to its end, and then for
every debounced filesystem event calls `handle_event`, which on a `Write`
event reads the newly appended bytes line by line (`BufReader::lines`) and
evaluates two lazily compiled regular expressions (a "map" rule and a "buy"
rule) against each line, firing a desktop notification per rule match.

Modelling conventions:
* File contents and lines are `List Char`; the reader state is the byte
  offset already consumed (`BufReader`'s position).
* The `regex` crate is external; `compileRegex`/`captures` model its
  behaviour restricted to the pattern language this program's configurations
  use: literal characters, backslash-escaped metacharacters, and named
  groups `(?<name>.+)` / `(?P<name>.+)` whose body is exactly `.+`
  (greedy, `.` not matching a newline), searched unanchored with
  leftmost-first semantics.  Patterns outside this subset are rejected by
  the model compiler.
* `Regex::new(..).unwrap()` panics and `&cap["name"]` index panics are
  modelled by the `Outcome.panicked` result; notification dispatch is
  modelled as an infallible emission of a `MatchEvent` (the notify-rust
  sink is external and its failure paths are not claimed).
* `handle_event` and the loop additionally return the list of raw lines
  handed to the rules; this is ghost instrumentation used only to state
  theorems and does not influence any computed result.
-/

set_option maxRecDepth 20000

namespace Brickatlas

/-- One item of a compiled pattern: a literal character or a named capture
group whose body is `.+`. -/
inductive TItem where
  | lit (c : Char)
  | group (name : String)
deriving DecidableEq

/-- A compiled pattern (the model of `regex::Regex`). -/
abbrev Template := List TItem

/-- Regex metacharacters: bare occurrences are rejected by the model
compiler (this program's patterns never use them outside escapes and the
supported group form). -/
def isMeta (c : Char) : Bool :=
  c = '(' || c = ')' || c = '.' || c = '+' || c = '*' || c = '?' ||
  c = '[' || c = ']' || c = '|' || c = '^' || c = '$' || c = '\x7b' || c = '\x7d'

/-- Characters an escape `\c` turns into a literal. -/
def isEscChar (c : Char) : Bool := isMeta c || c = '\\'

/-- Characters allowed in a capture-group name. -/
def isNameChar (c : Char) : Bool := c.isAlphanum || c = '_'

/-- Parses a capture-group name up to the closing `>`. -/
def parseNameAux (acc : List Char) : List Char → Option (List Char × List Char)
  | [] => none
  | c :: rest =>
    if c = '>' then (if acc.isEmpty then none else some (acc.reverse, rest))
    else if isNameChar c then parseNameAux (c :: acc) rest
    else none

/-- Fuelled pattern parser; each step consumes at least one character, so
`length + 1` fuel always suffices. -/
def parseTplF (fuel : Nat) (s : List Char) : Option Template :=
  match fuel with
  | 0 => none
  | fuel + 1 =>
    match s with
    | [] => some []
    | '\\' :: rest =>
      match rest with
      | [] => none
      | c :: r2 =>
        if isEscChar c then (parseTplF fuel r2).map (TItem.lit c :: ·) else none
    | '(' :: rest =>
      match
        (match rest with
         | '?' :: 'P' :: '<' :: r => some r
         | '?' :: '<' :: r => some r
         | _ => none) with
      | none => none
      | some r =>
        match parseNameAux [] r with
        | none => none
        | some (name, r2) =>
          match r2 with
          | '.' :: '+' :: ')' :: r3 =>
            (parseTplF fuel r3).map (TItem.group (String.mk name) :: ·)
          | _ => none
    | c :: rest =>
      if isMeta c then none else (parseTplF fuel rest).map (TItem.lit c :: ·)

/-- Model of `regex::Regex::new` on the supported pattern subset; `none`
models a compilation error. -/
def compileRegex (s : String) : Option Template :=
  parseTplF (s.length + 1) s.data

/-- Looks up a named capture; `none` models the `&cap["name"]` panic. -/
def lookupCap (caps : List (String × List Char)) (name : String) : Option (List Char) :=
  (caps.find? (fun p => p.1 = name)).map (·.2)

/-- Matches a template against a suffix of the subject starting here.
A group `(?<n>.+)` greedily tries the longest non-empty newline-free
prefix first (leftmost-first semantics); the template need not consume
the whole subject. -/
def matchItems : Template → List Char → Option (List (String × List Char))
  | [] => fun _ => some []
  | TItem.lit c :: rest => fun s =>
    match s with
    | [] => none
    | d :: s2 => if d = c then matchItems rest s2 else none
  | TItem.group name :: rest => fun s =>
    (List.range s.length).findSome? (fun i =>
      let k := s.length - i
      if (s.take k).contains '\n' then none
      else
        match matchItems rest (s.drop k) with
        | none => none
        | some caps => some ((name, s.take k) :: caps))

/-- Model of `Regex::captures`: unanchored search, trying start positions
left to right. -/
def captures (t : Template) : List Char → Option (List (String × List Char))
  | [] => matchItems t []
  | c :: rest =>
    match matchItems t (c :: rest) with
    | some caps => some caps
    | none => captures t rest

/-- Strips one trailing carriage return (the `\r\n` handling of
`BufRead::lines`). -/
def stripCr (l : List Char) : List Char :=
  match l.getLast? with
  | some '\r' => l.dropLast
  | _ => l

/-- Accumulating worker for `readLines`; `acc` holds the current line's
characters in reverse. -/
def readLinesAux (acc : List Char) : List Char → List (List Char)
  | [] => if acc.isEmpty then [] else [acc.reverse]
  | c :: rest =>
    if c = '\n' then stripCr acc.reverse :: readLinesAux [] rest
    else readLinesAux (c :: acc) rest

/-- Model of draining `BufReader::lines()`: splits on `'\n'` (stripping a
preceding `'\r'`) and, crucially, also yields a final segment that is not
newline-terminated. -/
def readLines (s : List Char) : List (List Char) := readLinesAux [] s

/-- Model of the `Config` struct (src/src/lib.rs lines 88-100).  The
compiled fields start as `none` (`#[serde(skip)]`) and are populated
lazily. -/
structure Config where
  logfile : String
  maps : List (List Char)
  maps_regex : String
  maps_regex_compiled : Option Template
  buy_regex : String
  buy_regex_compiled : Option Template
deriving DecidableEq

/-- Model of `Config::maps_regex` (lines 147-154): return the cached
compiled pattern or compile and cache it; `none` models the `.unwrap()`
panic on an invalid pattern. -/
def Config.maps_regex_lazy (c : Config) : Option (Template × Config) :=
  match c.maps_regex_compiled with
  | some t => some (t, c)
  | none =>
    match compileRegex c.maps_regex with
    | some t => some (t, { c with maps_regex_compiled := some t })
    | none => none

/-- Model of `Config::buy_regex` (lines 156-163). -/
def Config.buy_regex_lazy (c : Config) : Option (Template × Config) :=
  match c.buy_regex_compiled with
  | some t => some (t, c)
  | none =>
    match compileRegex c.buy_regex with
    | some t => some (t, { c with buy_regex_compiled := some t })
    | none => none

/-- A fired notification: `notify_map` carries no data, `notify_buyer`
carries the five captured fields (lines 206-239). -/
inductive MatchEvent where
  | map
  | buyer (buyer object price league location : List Char)
deriving DecidableEq

/-- Result of a run step: `Ok(())`, an `AtlasError` variant, or a panic
(`unwrap` / capture-index). -/
inductive Outcome where
  | ok
  | ioError
  | configError (msg : String)
  | panicked
deriving DecidableEq

/-- The debounced filesystem event kinds `handle_event` distinguishes:
`Write` versus everything else, together with the file's content at the
moment the event is handled and whether reading the delta raises an IO
error. -/
inductive EventKind where
  | write
  | other
deriving DecidableEq

/-- A delivered filesystem event plus the external state it finds: the
watched file's current content, and an oracle flag saying the read of the
appended delta fails with an IO error. -/
structure FsEvent where
  kind : EventKind
  newContent : List Char
  ioError : Bool
deriving DecidableEq

/-- Result of `handle_event` or of the event loop: outcome, the (possibly
mutated) config, the reader's new offset, the notifications fired in
order, and (ghost) the raw lines handed to the rules. -/
structure LoopResult where
  result : Outcome
  config : Config
  pos : Nat
  events : List MatchEvent
  lines : List (List Char)
deriving DecidableEq

/-- The map-rule stage of the loop body (lines 182-191): capture the
line, then run `maps.iter().find(|m| m == &cap["map"])`.  `none` models
the `&cap["map"]` panic; it can only happen when `maps` is non-empty,
because the closure never runs on an empty list.  `some evs` is the list
of notifications fired (one `map` event when a configured map matched). -/
def mapStep (maps : List (List Char)) (t1 : Template) (l : List Char) :
    Option (List MatchEvent) :=
  match captures t1 l with
  | none => some []
  | some cap =>
    if maps.isEmpty then some []
    else
      match lookupCap cap "map" with
      | none => none
      | some v => if maps.contains v then some [.map] else some []

/-- The buy-rule stage of the loop body (lines 192-200): capture the
line and read the five named groups.  `none` models a `&cap[..]` panic,
`some none` no match, `some (some ev)` the fired buyer notification. -/
def buyStep (t2 : Template) (l : List Char) : Option (Option MatchEvent) :=
  match captures t2 l with
  | none => some none
  | some cap =>
    match lookupCap cap "buyer", lookupCap cap "object", lookupCap cap "price",
          lookupCap cap "league", lookupCap cap "location" with
    | some b, some o, some pr, some le, some lo => some (some (.buyer b o pr le lo))
    | _, _, _, _, _ => none

/-- Evaluates both rules against one line (the body of the `for line`
loop, lines 182-200): compile-or-fetch the maps pattern, run the map
stage, then compile-or-fetch the buy pattern and run the buy stage; the
first panic aborts, map notifications already fired staying fired. -/
def processLine (c : Config) (l : List Char) : Outcome × Config × List MatchEvent :=
  match c.maps_regex_lazy with
  | none => (.panicked, c, [])
  | some (t1, c1) =>
    match mapStep c1.maps t1 l with
    | none => (.panicked, c1, [])
    | some evs1 =>
      match c1.buy_regex_lazy with
      | none => (.panicked, c1, evs1)
      | some (t2, c2) =>
        match buyStep t2 l with
        | none => (.panicked, c2, evs1)
        | some none => (.ok, c2, evs1)
        | some (some ev) => (.ok, c2, evs1 ++ [ev])

/-- Folds `processLine` over the lines of one delta, stopping at the first
panic (the `for line in file.lines()` loop). -/
def processLines (c : Config) : List (List Char) → Outcome × Config × List MatchEvent
  | [] => (.ok, c, [])
  | l :: rest =>
    match processLine c l with
    | (.ok, c1, evs1) =>
      let r := processLines c1 rest
      (r.1, r.2.1, evs1 ++ r.2.2)
    | r => r

/-- Model of `handle_event` (lines 173-204): only a `Write` event reads;
it drains the file from the current offset to its end (which yields
nothing when the file shrank below the offset) and runs both rules on
every line obtained. -/
def handle_event (ev : FsEvent) (c : Config) (p : Nat) : LoopResult :=
  match ev.kind with
  | .write =>
    if ev.ioError then ⟨.ioError, c, p, [], []⟩
    else
      let lns := readLines (ev.newContent.drop p)
      let r := processLines c lns
      ⟨r.1, r.2.1, max p ev.newContent.length, r.2.2, lns⟩
  | .other => ⟨.ok, c, p, [], []⟩

/-- The `for event in rx` loop (lines 258-260): events are handled in
delivery order; the first error or panic stops the loop with no retry. -/
def runLoop (c : Config) (p : Nat) : List FsEvent → LoopResult
  | [] => ⟨.ok, c, p, [], []⟩
  | ev :: rest =>
    let r := handle_event ev c p
    match r.result with
    | .ok =>
      let r2 := runLoop r.config r.pos rest
      ⟨r2.result, r2.config, r2.pos, r.events ++ r2.events, r.lines ++ r2.lines⟩
    | _ => r

/-- The external world `run` interacts with: whether the watched path
exists at startup, the file's initial content, and the delivered events. -/
structure World where
  pathExists : Bool
  initialContent : List Char
  events : List FsEvent
deriving DecidableEq

/-- Observable result of `run`: its return value, whether the watch was
registered, the offset right after opening (`none` when the file was never
opened), final config and offset, and the fired notifications and (ghost)
processed lines. -/
structure RunResult where
  result : Outcome
  watchRegistered : Bool
  initialPos : Option Nat
  finalConfig : Config
  finalPos : Option Nat
  events : List MatchEvent
  lines : List (List Char)
deriving DecidableEq

/-- Model of `run` (lines 242-262): missing path fails with
`ConfigError` before the watch is registered and before the file is
opened; otherwise the watch is registered, the file opened and seeked to
its end (initial offset = file size), and the event loop runs. -/
def run (w : World) (c : Config) : RunResult :=
  if w.pathExists then
    ⟨(runLoop c w.initialContent.length w.events).result, true,
      some w.initialContent.length,
      (runLoop c w.initialContent.length w.events).config,
      some (runLoop c w.initialContent.length w.events).pos,
      (runLoop c w.initialContent.length w.events).events,
      (runLoop c w.initialContent.length w.events).lines⟩
  else
    ⟨.configError ("watchfile (" ++ c.logfile ++ ") doesn't exist"),
      false, none, c, none, [], []⟩

/-- Model of `main` (src/src/main.rs lines 10-13): `Err` prints and exits
with status 1; a Rust panic aborts the process with status 101. -/
def exitCode : Outcome → Nat
  | .ok => 0
  | .panicked => 101
  | _ => 1

/-- Builds the `Write` events of an append-only history: each delta is
appended to the previous content and announced by one wake-up. -/
def writeEvents (base : List Char) : List (List Char) → List FsEvent
  | [] => []
  | d :: ds => ⟨.write, base ++ d, false⟩ :: writeEvents (base ++ d) ds

/-- The maps pattern `handle_event` would effectively use on the next
line: the cached compiled pattern if present, else the compilation of the
source string. -/
def effectiveMapsRegex (c : Config) : Option Template :=
  match c.maps_regex_compiled with
  | some t => some t
  | none => compileRegex c.maps_regex

/-- The buy pattern `handle_event` would effectively use on the next
line. -/
def effectiveBuyRegex (c : Config) : Option Template :=
  match c.buy_regex_compiled with
  | some t => some t
  | none => compileRegex c.buy_regex

/-- Pure satisfaction of the map rule by one line against a compiled
pattern and map list: the pattern captures and the `"map"` group's value
is a configured map. -/
def mapHit (maps : List (List Char)) (t : Template) (l : List Char) : Bool :=
  match captures t l with
  | none => false
  | some cap =>
    match lookupCap cap "map" with
    | none => false
    | some v => maps.contains v

/-- Pure match event of the buy rule on one line against a compiled
pattern: the pattern captures and all five fields are present. -/
def buyHit (t : Template) (l : List Char) : Option MatchEvent :=
  match captures t l with
  | none => none
  | some cap =>
    match lookupCap cap "buyer", lookupCap cap "object", lookupCap cap "price",
          lookupCap cap "league", lookupCap cap "location" with
    | some b, some o, some pr, some le, some lo => some (.buyer b o pr le lo)
    | _, _, _, _, _ => none

/-- The map rule's satisfaction on one line, stated independently of the
evaluation order. -/
def mapRuleMatches (c : Config) (l : List Char) : Bool :=
  match effectiveMapsRegex c with
  | none => false
  | some t => mapHit c.maps t l

/-- The buy rule's match event on one line, stated independently of the
evaluation order. -/
def buyEventOf (c : Config) (l : List Char) : Option MatchEvent :=
  match effectiveBuyRegex c with
  | none => none
  | some t => buyHit t l

/-- The only `Config` change an event can cause: all plain fields are
preserved, and each compiled-pattern cache is either untouched or goes
from empty to the compilation of its (unchanged) source string. -/
def CachePreserve (c c2 : Config) : Prop :=
  c2.logfile = c.logfile ∧ c2.maps = c.maps ∧
  c2.maps_regex = c.maps_regex ∧ c2.buy_regex = c.buy_regex ∧
  (c2.maps_regex_compiled = c.maps_regex_compiled ∨
    (c.maps_regex_compiled = none ∧ c2.maps_regex_compiled = compileRegex c.maps_regex)) ∧
  (c2.buy_regex_compiled = c.buy_regex_compiled ∨
    (c.buy_regex_compiled = none ∧ c2.buy_regex_compiled = compileRegex c.buy_regex))

/-- A configuration whose patterns (`"@"`) compile but match none of the
lines used in the concrete scenarios below. -/
def cfgInert : Config := ⟨"log", [], "@", none, "@", none⟩

/-- A configuration whose map rule `(?<map>.+)` matches any non-empty
line and whose configured map list is exactly `["ab"]`. -/
def cfgAnyMap : Config := ⟨"log", ["ab".data], "(?<map>.+)", none, "@", none⟩

/-- A configuration whose maps pattern `"("` is rejected by the pattern
compiler (unclosed group), as `regex::Regex::new` rejects it. -/
def cfgBadMaps : Config := ⟨"log", ["x".data], "(", none, "@", none⟩

/-- A configuration whose maps pattern compiles and matches any
non-empty line but declares no `map` group, with a non-empty configured
maps list. -/
def cfgNoGroup : Config := ⟨"log", ["x".data], "(?<other>.+)", none, "@", none⟩

/-- A configuration under which the line `a,b,c,d,e` satisfies both the
map rule and the buy rule. -/
def cfgBoth : Config :=
  ⟨"log", ["a,b,c,d,e".data], "(?<map>.+)", none,
   "(?<buyer>.+),(?<object>.+),(?<price>.+),(?<league>.+),(?<location>.+)", none⟩

/-- The spec's example buy pattern. -/
def buyPattern : String :=
  "@From (?<buyer>.+): Hi, I would like to buy your (?<object>.+) listed for (?<price>.+) in (?<league>.+) \\((?<location>.+)\\)"

/-- The spec's example buy line. -/
def buyLine : String :=
  "@From Chris: Hi, I would like to buy your Headhunter listed for 40 exalted in Standard (Hideout)"

/-- A configuration with the spec's example buy pattern and a maps
pattern that matches nothing. -/
def cfgBuy : Config := ⟨"log", [], "zzz", none, buyPattern, none⟩

/-- A configuration whose compiled-pattern caches are already populated. -/
def cfgPre : Config := ⟨"log", [], "@", some [TItem.lit '@'], "@", some [TItem.lit '@']⟩

/-! ### Line splitting -/

theorem readLinesAux_cons (acc : List Char) (c : Char) (l : List Char) :
    readLinesAux acc (c :: l) =
      if c = '\n' then stripCr acc.reverse :: readLinesAux [] l
      else readLinesAux (c :: acc) l := rfl

theorem readLinesAux_append (a : List Char) (ha : a.getLast? = some '\n') :
    ∀ (acc b : List Char),
      readLinesAux acc (a ++ b) = readLinesAux acc a ++ readLinesAux [] b := by
  induction a with
  | nil => simp at ha
  | cons c rest ih =>
    intro acc b
    cases rest with
    | nil =>
      obtain rfl : c = '\n' := by simpa using ha
      simp [readLinesAux]
    | cons d rest2 =>
      have ha2 : (d :: rest2).getLast? = some '\n' := by
        rwa [List.getLast?_cons_cons] at ha
      by_cases hc : c = '\n'
      · subst hc
        rw [List.cons_append, readLinesAux_cons, readLinesAux_cons,
          if_pos rfl, if_pos rfl, ih ha2, List.cons_append]
      · rw [List.cons_append, readLinesAux_cons, readLinesAux_cons,
          if_neg hc, if_neg hc, ih ha2]

theorem readLines_append (a b : List Char) (ha : a.getLast? = some '\n') :
    readLines (a ++ b) = readLines a ++ readLines b :=
  readLinesAux_append a ha [] b

theorem readLinesAux_no_newline (b : List Char) (hb : '\n' ∉ b) :
    ∀ acc : List Char,
      readLinesAux acc b =
        if acc.reverse ++ b = [] then [] else [acc.reverse ++ b] := by
  induction b with
  | nil =>
    intro acc
    cases acc <;> simp [readLinesAux]
  | cons c rest ih =>
    intro acc
    have hc : c ≠ '\n' := fun h => hb (h ▸ List.mem_cons_self c rest)
    have hrest : '\n' ∉ rest := fun h => hb (List.mem_cons_of_mem c h)
    simp only [readLinesAux, if_neg hc, ih hrest]
    simp [List.append_assoc]

theorem readLines_no_newline (b : List Char) (hb' : b ≠ []) (hb : '\n' ∉ b) :
    readLines b = [b] := by
  unfold readLines
  rw [readLinesAux_no_newline b hb []]
  simp [hb']

/-- C1, amended part: when every delivered chunk is empty or ends with the
line terminator, delivery across N wake-ups yields the same ordered list
of lines as a single delivery. -/
theorem readLines_flatten (ds : List (List Char))
    (h : ∀ d ∈ ds, d = [] ∨ d.getLast? = some '\n') :
    (ds.map readLines).flatten = readLines ds.flatten := by
  induction ds with
  | nil => rfl
  | cons d rest ih =>
    have hd := h d (List.mem_cons_self d rest)
    have hrest := ih (fun x hx => h x (List.mem_cons_of_mem d hx))
    simp only [List.map_cons, List.flatten_cons]
    cases hd with
    | inl h0 => subst h0; simpa [readLines, readLinesAux] using hrest
    | inr hnl => rw [hrest, readLines_append d rest.flatten hnl]

/-- C1: splitting the delivery of the byte sequence `"abc\n"` into the
two wake-ups `"ab"` / `"c\n"` yields a different list of lines (and hence
different rule inputs) than delivering it in one wake-up: `["ab", "c"]`
versus `["abc"]`.  The code has no pending-fragment reassembly. -/
theorem c1_counterexample :
    (run ⟨true, [], writeEvents [] ["ab".data, "c\n".data]⟩ cfgInert).lines ≠
      (run ⟨true, [], writeEvents [] ["ab".data ++ "c\n".data]⟩ cfgInert).lines := by
  decide

/-- C1 (amended): the ordered list of complete lines is invariant under
splitting the delivery into wake-ups exactly when every delivered chunk
ends at a line terminator; `readLines_flatten` states this for the
line-splitting step the watch loop applies to each delta. -/
theorem c1_amended (ds : List (List Char))
    (h : ∀ d ∈ ds, d = [] ∨ d.getLast? = some '\n') :
    (ds.map readLines).flatten = readLines ds.flatten :=
  readLines_flatten ds h

theorem c1_amended_witness :
    (∀ d ∈ ["ab\n".data, "c\n".data], d = [] ∨ d.getLast? = some '\n') ∧
      ((["ab\n".data, "c\n".data].map readLines).flatten =
        readLines ("ab\n".data ++ "c\n".data)) :=
  ⟨by decide, c1_amended ["ab\n".data, "c\n".data] (by decide)⟩

/-- C2: a wake-up delivering the unterminated bytes `"ab"` emits `"ab"`
as a line and offers it to the pattern rules, which here produce a map
match event — so an unterminated trailing segment is matched, not
retained. -/
theorem c2_counterexample :
    (run ⟨true, [], [⟨.write, "ab".data, false⟩]⟩ cfgAnyMap).events = [MatchEvent.map] ∧
      (run ⟨true, [], [⟨.write, "ab".data, false⟩]⟩ cfgAnyMap).lines = ["ab".data] := by
  decide

/-- C2 (amended): a trailing byte segment not terminated by the
line-terminator byte is emitted immediately as the final line of the
wake-up (and hence offered to the rules like any other line); no pending
fragment is retained. -/
theorem c2_amended (a b : List Char) (ha : a = [] ∨ a.getLast? = some '\n')
    (hb' : b ≠ []) (hb : '\n' ∉ b) :
    readLines (a ++ b) = readLines a ++ [b] := by
  cases ha with
  | inl h0 => subst h0; simpa using readLines_no_newline b hb' hb
  | inr hnl => rw [readLines_append a b hnl, readLines_no_newline b hb' hb]

theorem c2_amended_witness :
    ("b" : String).data ≠ [] ∧ '\n' ∉ ("b" : String).data ∧
      readLines ("a\n".data ++ "b".data) = readLines "a\n".data ++ ["b".data] :=
  ⟨by decide, by decide,
    c2_amended "a\n".data "b".data (Or.inr (by decide)) (by decide) (by decide)⟩

/-! ### Rule evaluation -/

theorem maps_regex_lazy_spec (c : Config) (t : Template) (c1 : Config)
    (h : c.maps_regex_lazy = some (t, c1)) :
    effectiveMapsRegex c = some t ∧ CachePreserve c c1 := by
  unfold Config.maps_regex_lazy at h
  cases hm : c.maps_regex_compiled with
  | some t0 =>
    rw [hm] at h
    simp only [Option.some.injEq, Prod.mk.injEq] at h
    obtain ⟨rfl, rfl⟩ := h
    exact ⟨by simp [effectiveMapsRegex, hm], rfl, rfl, rfl, rfl, Or.inl rfl, Or.inl rfl⟩
  | none =>
    rw [hm] at h
    cases hc : compileRegex c.maps_regex with
    | none => rw [hc] at h; cases h
    | some t0 =>
      rw [hc] at h
      simp only [Option.some.injEq, Prod.mk.injEq] at h
      obtain ⟨rfl, rfl⟩ := h
      exact ⟨by simp [effectiveMapsRegex, hm, hc], rfl, rfl, rfl, rfl,
        Or.inr ⟨hm, by simp [hc]⟩, Or.inl rfl⟩

theorem buy_regex_lazy_spec (c : Config) (t : Template) (c1 : Config)
    (h : c.buy_regex_lazy = some (t, c1)) :
    effectiveBuyRegex c = some t ∧ CachePreserve c c1 := by
  unfold Config.buy_regex_lazy at h
  cases hm : c.buy_regex_compiled with
  | some t0 =>
    rw [hm] at h
    simp only [Option.some.injEq, Prod.mk.injEq] at h
    obtain ⟨rfl, rfl⟩ := h
    exact ⟨by simp [effectiveBuyRegex, hm], rfl, rfl, rfl, rfl, Or.inl rfl, Or.inl rfl⟩
  | none =>
    rw [hm] at h
    cases hc : compileRegex c.buy_regex with
    | none => rw [hc] at h; cases h
    | some t0 =>
      rw [hc] at h
      simp only [Option.some.injEq, Prod.mk.injEq] at h
      obtain ⟨rfl, rfl⟩ := h
      exact ⟨by simp [effectiveBuyRegex, hm, hc], rfl, rfl, rfl, rfl,
        Or.inl rfl, Or.inr ⟨hm, by simp [hc]⟩⟩

theorem CachePreserve.refl (c : Config) : CachePreserve c c :=
  ⟨rfl, rfl, rfl, rfl, Or.inl rfl, Or.inl rfl⟩

theorem CachePreserve.trans {a b c : Config}
    (h1 : CachePreserve a b) (h2 : CachePreserve b c) : CachePreserve a c := by
  obtain ⟨e1, e2, e3, e4, d1, d2⟩ := h1
  obtain ⟨f1, f2, f3, f4, g1, g2⟩ := h2
  refine ⟨f1.trans e1, f2.trans e2, f3.trans e3, f4.trans e4, ?_, ?_⟩
  · cases g1 with
    | inl hg => rw [hg]; exact d1
    | inr hg =>
      cases d1 with
      | inl hd => exact Or.inr ⟨hd ▸ hg.1, by rw [hg.2, e3]⟩
      | inr hd => exact Or.inr ⟨hd.1, by rw [hg.2, e3]⟩
  · cases g2 with
    | inl hg => rw [hg]; exact d2
    | inr hg =>
      cases d2 with
      | inl hd => exact Or.inr ⟨hd ▸ hg.1, by rw [hg.2, e4]⟩
      | inr hd => exact Or.inr ⟨hd.1, by rw [hg.2, e4]⟩

/-- The effective patterns (and the configured map list) are invariant
under the only mutation events can cause. -/
theorem CachePreserve.effective {c c1 : Config} (h : CachePreserve c c1) :
    effectiveMapsRegex c1 = effectiveMapsRegex c ∧
      effectiveBuyRegex c1 = effectiveBuyRegex c ∧ c1.maps = c.maps := by
  obtain ⟨e1, e2, e3, e4, d1, d2⟩ := h
  refine ⟨?_, ?_, e2⟩
  · cases d1 with
    | inl hd => unfold effectiveMapsRegex; rw [hd, e3]
    | inr hd =>
      unfold effectiveMapsRegex
      rw [hd.1, hd.2, e3]
      cases hc : compileRegex c.maps_regex <;> simp
  · cases d2 with
    | inl hd => unfold effectiveBuyRegex; rw [hd, e4]
    | inr hd =>
      unfold effectiveBuyRegex
      rw [hd.1, hd.2, e4]
      cases hc : compileRegex c.buy_regex <;> simp

theorem mapRuleMatches_congr {c c1 : Config} (h : CachePreserve c c1) :
    mapRuleMatches c1 = mapRuleMatches c := by
  funext l
  unfold mapRuleMatches
  rw [h.effective.1, h.effective.2.2]

theorem buyEventOf_congr {c c1 : Config} (h : CachePreserve c c1) :
    buyEventOf c1 = buyEventOf c := by
  funext l
  unfold buyEventOf
  rw [h.effective.2.1]

/-- A successful map stage fires exactly one map event when the map rule
is satisfied, none otherwise. -/
theorem mapStep_ok (maps : List (List Char)) (t1 : Template) (l : List Char)
    (evs1 : List MatchEvent) (h : mapStep maps t1 l = some evs1) :
    evs1 = if mapHit maps t1 l then [MatchEvent.map] else [] := by
  unfold mapStep at h
  cases hcap : captures t1 l with
  | none =>
    simp only [hcap] at h
    cases h
    simp [mapHit, hcap]
  | some cap =>
    simp only [hcap] at h
    by_cases hemp : maps.isEmpty
    · rw [if_pos hemp] at h
      cases h
      obtain rfl : maps = [] := List.isEmpty_iff.mp hemp
      cases hl : lookupCap cap "map" with
      | none => simp [mapHit, hcap, hl]
      | some v => simp [mapHit, hcap, hl]
    · rw [if_neg hemp] at h
      cases hl : lookupCap cap "map" with
      | none => simp only [hl] at h; cases h
      | some v =>
        simp only [hl] at h
        by_cases hc : maps.contains v
        · rw [if_pos hc] at h
          cases h
          have hv : v ∈ maps := by simpa using hc
          simp [mapHit, hcap, hl, hv]
        · rw [if_neg hc] at h
          cases h
          have hv : v ∉ maps := by simpa using hc
          simp [mapHit, hcap, hl, hv]

set_option linter.unnecessarySeqFocus false in
/-- A successful buy stage fires the buy event exactly when the buy rule
is satisfied. -/
theorem buyStep_ok (t2 : Template) (l : List Char) (r : Option MatchEvent)
    (h : buyStep t2 l = some r) : r = buyHit t2 l := by
  unfold buyStep at h
  cases hcap : captures t2 l with
  | none => simp only [hcap] at h; cases h; simp [buyHit, hcap]
  | some cap =>
    simp only [hcap] at h
    rcases hb : lookupCap cap "buyer" with - | b <;>
      rcases ho : lookupCap cap "object" with - | o <;>
        rcases hp : lookupCap cap "price" with - | pr <;>
          rcases hle : lookupCap cap "league" with - | le <;>
            rcases hlo : lookupCap cap "location" with - | lo <;>
              simp only [hb, ho, hp, hle, hlo] at h <;>
                cases h <;> simp [buyHit, hcap, hb, ho, hp, hle, hlo]

/-- One pass of the loop body: on a non-panicking line, the emitted
events are exactly one map event if the map rule is satisfied followed by
one buy event if the buy rule is satisfied, and the config evolves only
by cache population. -/
theorem processLine_ok (c c2 : Config) (l : List Char) (evs : List MatchEvent)
    (h : processLine c l = (.ok, c2, evs)) :
    evs = (if mapRuleMatches c l then [MatchEvent.map] else []) ++
        (buyEventOf c l).toList ∧
      CachePreserve c c2 := by
  unfold processLine at h
  cases h1 : c.maps_regex_lazy with
  | none => simp only [h1] at h; simp at h
  | some tc =>
    obtain ⟨t1, c1⟩ := tc
    simp only [h1] at h
    obtain ⟨hma, hcp1⟩ := maps_regex_lazy_spec c t1 c1 h1
    have hmap : mapRuleMatches c l = mapHit c.maps t1 l := by
      unfold mapRuleMatches; rw [hma]
    cases hm : mapStep c1.maps t1 l with
    | none => simp only [hm] at h; simp at h
    | some evs1 =>
      simp only [hm] at h
      have hevs1 : evs1 = if mapRuleMatches c l then [MatchEvent.map] else [] := by
        rw [hmap, ← hcp1.effective.2.2]
        exact mapStep_ok c1.maps t1 l evs1 hm
      cases h2 : c1.buy_regex_lazy with
      | none => simp only [h2] at h; simp at h
      | some tc2 =>
        obtain ⟨t2, c21⟩ := tc2
        simp only [h2] at h
        obtain ⟨hba, hcp2⟩ := buy_regex_lazy_spec c1 t2 c21 h2
        have hbuy : buyEventOf c l = buyHit t2 l := by
          unfold buyEventOf
          rw [← hcp1.effective.2.1, hba]
        cases hb : buyStep t2 l with
        | none => simp only [hb] at h; simp at h
        | some r =>
          simp only [hb] at h
          have hr : r = buyHit t2 l := buyStep_ok t2 l r hb
          cases r with
          | none =>
            simp only [Prod.mk.injEq] at h
            obtain ⟨-, rfl, rfl⟩ := h
            refine ⟨?_, hcp1.trans hcp2⟩
            rw [hevs1, hbuy, ← hr]
            simp
          | some ev =>
            simp only [Prod.mk.injEq] at h
            obtain ⟨-, rfl, rfl⟩ := h
            refine ⟨?_, hcp1.trans hcp2⟩
            rw [hevs1, hbuy, ← hr]
            simp

/-- Any single line pass only preserves or populates the pattern
caches. -/
theorem processLine_cache (c : Config) (l : List Char) (r : Outcome)
    (c1 : Config) (evs : List MatchEvent) (h : processLine c l = (r, c1, evs)) :
    CachePreserve c c1 := by
  unfold processLine at h
  cases h1 : c.maps_regex_lazy with
  | none =>
    simp only [h1, Prod.mk.injEq] at h
    obtain ⟨-, rfl, -⟩ := h
    exact CachePreserve.refl c
  | some tc =>
    obtain ⟨t1, ca⟩ := tc
    simp only [h1] at h
    obtain ⟨-, hcp1⟩ := maps_regex_lazy_spec c t1 ca h1
    cases hm : mapStep ca.maps t1 l with
    | none =>
      simp only [hm, Prod.mk.injEq] at h
      obtain ⟨-, rfl, -⟩ := h
      exact hcp1
    | some evs1 =>
      simp only [hm] at h
      cases h2 : ca.buy_regex_lazy with
      | none =>
        simp only [h2, Prod.mk.injEq] at h
        obtain ⟨-, rfl, -⟩ := h
        exact hcp1
      | some tc2 =>
        obtain ⟨t2, cb⟩ := tc2
        simp only [h2] at h
        obtain ⟨-, hcp2⟩ := buy_regex_lazy_spec ca t2 cb h2
        cases hb : buyStep t2 l with
        | none =>
          simp only [hb, Prod.mk.injEq] at h
          obtain ⟨-, rfl, -⟩ := h
          exact hcp1.trans hcp2
        | some ro =>
          simp only [hb] at h
          cases ro <;>
            · simp only [Prod.mk.injEq] at h
              obtain ⟨-, rfl, -⟩ := h
              exact hcp1.trans hcp2

/-- Processing any list of lines only preserves or populates the pattern
caches. -/
theorem processLines_cache (ls : List (List Char)) :
    ∀ c : Config, CachePreserve c (processLines c ls).2.1 := by
  induction ls with
  | nil => intro c; exact CachePreserve.refl c
  | cons l rest ih =>
    intro c
    rcases hpl : processLine c l with ⟨r1, c1, evs1⟩
    have hc1 : CachePreserve c c1 := processLine_cache c l r1 c1 evs1 hpl
    cases r1 with
    | ok =>
      simp only [processLines, hpl]
      exact hc1.trans (ih c1)
    | ioError => simp only [processLines, hpl]; exact hc1
    | configError m => simp only [processLines, hpl]; exact hc1
    | panicked => simp only [processLines, hpl]; exact hc1

/-- C3: when a batch of lines is processed without a panic, the fired
events are exactly, per line in order: one map event if the line
satisfies the map rule, then one buyer event if it satisfies the buy
rule — both rules are evaluated for every line (no short-circuit), one
event per satisfied rule, none for unsatisfied ones. -/
theorem c3_every_rule_every_line (c : Config) (ls : List (List Char))
    (h : (processLines c ls).1 = .ok) :
    (processLines c ls).2.2 = ls.flatMap (fun l =>
      (if mapRuleMatches c l then [MatchEvent.map] else []) ++
        (buyEventOf c l).toList) := by
  induction ls generalizing c with
  | nil => simp [processLines]
  | cons l rest ih =>
    rcases hpl : processLine c l with ⟨r1, c1, evs1⟩
    cases r1 with
    | ok =>
      simp only [processLines, hpl] at h ⊢
      obtain ⟨hevs, hcp⟩ := processLine_ok c c1 l evs1 hpl
      rw [List.flatMap_cons, ← hevs]
      congr 1
      rw [ih c1 h]
      congr 1
      funext l2
      rw [mapRuleMatches_congr hcp, buyEventOf_congr hcp]
    | ioError => simp only [processLines, hpl] at h; exact Outcome.noConfusion h
    | configError m => simp only [processLines, hpl] at h; exact Outcome.noConfusion h
    | panicked => simp only [processLines, hpl] at h; exact Outcome.noConfusion h

theorem c3_every_rule_every_line_witness :
    (processLines cfgBoth ["a,b,c,d,e".data]).2.2 =
      [MatchEvent.map,
        MatchEvent.buyer "a".data "b".data "c".data "d".data "e".data] := by
  have h := c3_every_rule_every_line cfgBoth ["a,b,c,d,e".data] (by decide)
  rw [h]
  decide

/-! ### Startup, truncation and the watch loop -/

/-- C4: with the unclosed-group pattern `"("` as maps pattern (rejected
by `Regex::new`), `run` still registers the watch and panics only when
the first line is evaluated — the validation failure is not reported as a
startup configuration error. -/
theorem c4_counterexample :
    (run ⟨true, [], [⟨.write, "x\n".data, false⟩]⟩ cfgBadMaps).watchRegistered = true ∧
      (run ⟨true, [], [⟨.write, "x\n".data, false⟩]⟩ cfgBadMaps).result = .panicked := by
  decide

/-- When the effective maps pattern is `t`, the lazy getter succeeds with
`t` and a config whose map list is unchanged. -/
theorem maps_regex_lazy_of_effective (c : Config) (t : Template)
    (h : effectiveMapsRegex c = some t) :
    ∃ c1, c.maps_regex_lazy = some (t, c1) ∧ c1.maps = c.maps := by
  unfold effectiveMapsRegex at h
  unfold Config.maps_regex_lazy
  cases hm : c.maps_regex_compiled with
  | some t0 =>
    rw [hm] at h
    obtain rfl : t0 = t := by injection h
    exact ⟨c, rfl, rfl⟩
  | none =>
    simp only [hm] at h
    refine ⟨{ c with maps_regex_compiled := some t }, ?_, rfl⟩
    simp only [h]

/-- C4 (amended): rule validation never happens at startup — whenever the
path exists, `run` registers the watch and opens the file (seeking to its
end) regardless of the pattern strings.  An invalid pattern expression
panics inside the watch loop when the rule is first used on a delivered
line.  A pattern whose match lacks a declared capture group panics at the
first delivered line the pattern matches on which the group is actually
read: for the map rule only when the configured maps list is non-empty
(with an empty list the group is never read and no panic occurs), and a
line the pattern does not match never triggers the panic — likewise for
the buy rule's groups. -/
theorem c4_validation_at_match_time :
    (∀ (cfg : Config) (w : World), w.pathExists = true →
      (run w cfg).watchRegistered = true ∧
        (run w cfg).initialPos = some w.initialContent.length) ∧
    (∀ (cfg : Config) (w : World) (content : List Char),
      w.pathExists = true → w.events = [⟨.write, content, false⟩] →
      cfg.maps_regex_compiled = none → compileRegex cfg.maps_regex = none →
      readLines (content.drop w.initialContent.length) ≠ [] →
      (run w cfg).result = .panicked) ∧
    (∀ (cfg : Config) (w : World) (content l : List Char) (t : Template)
      (cap : List (String × List Char)),
      w.pathExists = true → w.events = [⟨.write, content, false⟩] →
      readLines (content.drop w.initialContent.length) = [l] →
      effectiveMapsRegex cfg = some t → captures t l = some cap →
      lookupCap cap "map" = none → cfg.maps ≠ [] →
      (run w cfg).result = .panicked) ∧
    (∀ (t : Template) (l : List Char) (cap : List (String × List Char)),
      captures t l = some cap → lookupCap cap "map" = none →
      mapStep [] t l = some []) ∧
    (∀ (maps : List (List Char)) (t : Template) (l : List Char),
      captures t l = none → mapStep maps t l = some []) ∧
    (∀ (t : Template) (l : List Char) (cap : List (String × List Char)),
      captures t l = some cap → lookupCap cap "buyer" = none →
      buyStep t l = none) ∧
    (∀ (t : Template) (l : List Char),
      captures t l = none → buyStep t l = some none) := by
  refine ⟨?_, ?_, ?_, ?_, ?_, ?_, ?_⟩
  · intro cfg w hp
    unfold run
    rw [hp, if_pos rfl]
    exact ⟨rfl, rfl⟩
  · intro cfg w content hp hev hcache hbad hlines
    obtain ⟨l, ls, hls⟩ := List.exists_cons_of_ne_nil hlines
    have hlazy : cfg.maps_regex_lazy = none := by
      unfold Config.maps_regex_lazy
      rw [hcache, hbad]
    have hline : processLine cfg l = (.panicked, cfg, []) := by
      unfold processLine
      rw [hlazy]
    have hlines2 : processLines cfg (l :: ls) = (.panicked, cfg, []) := by
      simp only [processLines, hline]
    unfold run
    rw [hp, hev]
    simp only [runLoop, handle_event, Bool.false_eq_true, if_false, hls, hlines2]
    simp
  · intro cfg w content l t cap hp hev hrl heff hcap hlook hmaps
    obtain ⟨c1, hlazy, hmaps1⟩ := maps_regex_lazy_of_effective cfg t heff
    have hms : mapStep c1.maps t l = none := by
      rw [hmaps1]
      unfold mapStep
      simp only [hcap, hlook]
      rw [if_neg (fun h => hmaps (List.isEmpty_iff.mp h))]
    have hline : processLine cfg l = (.panicked, c1, []) := by
      unfold processLine
      simp only [hlazy, hms]
    have hlines2 : processLines cfg [l] = (.panicked, c1, []) := by
      simp only [processLines, hline]
    unfold run
    rw [hp, hev]
    simp only [runLoop, handle_event, Bool.false_eq_true, if_false, hrl, hlines2]
    simp
  · intro t l cap hcap hlook
    unfold mapStep
    simp only [hcap]
    rfl
  · intro maps t l hcap
    unfold mapStep
    simp only [hcap]
  · intro t l cap hcap hb
    unfold buyStep
    simp only [hcap, hb]
  · intro t l hcap
    unfold buyStep
    simp only [hcap]

theorem c4_validation_at_match_time_witness :
    (run ⟨true, [], [⟨.write, "y\n".data, false⟩]⟩ cfgBadMaps).watchRegistered = true ∧
      (run ⟨true, [], [⟨.write, "y\n".data, false⟩]⟩ cfgBadMaps).initialPos = some 0 ∧
      (run ⟨true, [], [⟨.write, "y\n".data, false⟩]⟩ cfgBadMaps).result = .panicked ∧
      (run ⟨true, [], [⟨.write, "ab\n".data, false⟩]⟩ cfgNoGroup).result = .panicked ∧
      mapStep [] [TItem.group "other"] "ab".data = some [] ∧
      mapStep ["x".data] [TItem.lit 'z'] "ab".data = some [] ∧
      buyStep [TItem.group "other"] "ab".data = none ∧
      buyStep [TItem.lit 'z'] "ab".data = some none :=
  ⟨(c4_validation_at_match_time.1 cfgBadMaps ⟨true, [], [⟨.write, "y\n".data, false⟩]⟩
      rfl).1,
    (c4_validation_at_match_time.1 cfgBadMaps ⟨true, [], [⟨.write, "y\n".data, false⟩]⟩
      rfl).2,
    c4_validation_at_match_time.2.1 cfgBadMaps ⟨true, [], [⟨.write, "y\n".data, false⟩]⟩
      "y\n".data rfl rfl rfl (by decide) (by decide),
    c4_validation_at_match_time.2.2.1 cfgNoGroup
      ⟨true, [], [⟨.write, "ab\n".data, false⟩]⟩ "ab\n".data "ab".data
      [TItem.group "other"] [("other", "ab".data)] rfl rfl (by decide) (by decide)
      (by decide) (by decide) (by decide),
    c4_validation_at_match_time.2.2.2.1 [TItem.group "other"] "ab".data
      [("other", "ab".data)] (by decide) (by decide),
    c4_validation_at_match_time.2.2.2.2.1 ["x".data] [TItem.lit 'z'] "ab".data
      (by decide),
    c4_validation_at_match_time.2.2.2.2.2.1 [TItem.group "other"] "ab".data
      [("other", "ab".data)] (by decide) (by decide),
    c4_validation_at_match_time.2.2.2.2.2.2 [TItem.lit 'z'] "ab".data (by decide)⟩

/-- C5: after the watched file shrinks below the recorded offset (file
`"x"`, offset 4), a wake-up leaves the offset at 4 — it is not reset to
0 and the file is not treated as newly opened. -/
theorem c5_counterexample :
    (handle_event ⟨.write, "x".data, false⟩ cfgInert 4).pos = 4 ∧
      (handle_event ⟨.write, "x".data, false⟩ cfgInert 4).pos ≠ 0 ∧
      (handle_event ⟨.write, "x".data, false⟩ cfgInert 4).result = .ok := by
  decide

/-- C5 (amended): truncation is not detected.  When the file's length
drops below the recorded offset, the next wake-up does not fail and reads
no bytes (so no garbage), fires no events, and leaves the configuration
and — contrary to the claimed reset — the offset unchanged. -/
theorem c5_truncation_not_reset (c : Config) (p : Nat) (ev : FsEvent)
    (hk : ev.kind = .write) (hio : ev.ioError = false)
    (hlt : ev.newContent.length < p) :
    handle_event ev c p = ⟨.ok, c, p, [], []⟩ := by
  obtain ⟨k, nc, io⟩ := ev
  simp only at hk hio hlt
  subst hk; subst hio
  unfold handle_event
  rw [List.drop_eq_nil_of_le (le_of_lt hlt)]
  simp [readLines, readLinesAux, processLines, Nat.max_eq_left (le_of_lt hlt)]

theorem c5_truncation_not_reset_witness :
    handle_event ⟨.write, "x".data, false⟩ cfgInert 4 = ⟨.ok, cfgInert, 4, [], []⟩ :=
  c5_truncation_not_reset cfgInert 4 ⟨.write, "x".data, false⟩ rfl rfl (by decide)

/-- C6: when the watched path does not exist at startup, `run` returns
the `ConfigError` immediately: the watch is never registered, the file is
never opened, the loop never runs (no events, no lines), and the process
exits with status 1. -/
theorem c6_missing_path_config_error (w : World) (c : Config)
    (h : w.pathExists = false) :
    run w c = ⟨.configError ("watchfile (" ++ c.logfile ++ ") doesn't exist"),
        false, none, c, none, [], []⟩ ∧
      exitCode (run w c).result = 1 := by
  unfold run
  rw [h]
  simp [exitCode]

theorem c6_missing_path_config_error_witness :
    run ⟨false, [], []⟩ cfgInert =
        ⟨.configError ("watchfile (" ++ cfgInert.logfile ++ ") doesn't exist"),
          false, none, cfgInert, none, [], []⟩ ∧
      exitCode (run ⟨false, [], []⟩ cfgInert).result = 1 :=
  c6_missing_path_config_error ⟨false, [], []⟩ cfgInert rfl

/-- Along an append-only history announced by `Write` events, the loop
hands exactly the lines of the appended deltas to the rules: a prefix of
them if a panic stops the loop early, all of them when it runs to
completion. -/
theorem runLoop_writeEvents (ds : List (List Char)) :
    ∀ (base : List Char) (c : Config),
      (∃ rest, (runLoop c base.length (writeEvents base ds)).lines ++ rest
          = (ds.map readLines).flatten) ∧
        ((runLoop c base.length (writeEvents base ds)).result = .ok →
          (runLoop c base.length (writeEvents base ds)).lines
            = (ds.map readLines).flatten) := by
  induction ds with
  | nil =>
    intro base c
    exact ⟨⟨[], by simp [writeEvents, runLoop]⟩, fun _ => by simp [writeEvents, runLoop]⟩
  | cons d rest ih =>
    intro base c
    have hdrop : (base ++ d).drop base.length = d := List.drop_left base d
    have hmax : max base.length (base ++ d).length = (base ++ d).length := by
      simp [List.length_append, Nat.max_eq_right, Nat.le_add_right]
    rcases hpl : processLines c (readLines d) with ⟨r1, c1, evs1⟩
    have hhe : handle_event ⟨.write, base ++ d, false⟩ c base.length =
        ⟨r1, c1, (base ++ d).length, evs1, readLines d⟩ := by
      unfold handle_event
      simp only [Bool.false_eq_true, if_false, hdrop, hpl, hmax]
    cases r1 with
    | ok =>
      have hstep : runLoop c base.length (writeEvents base (d :: rest)) =
          ⟨(runLoop c1 (base ++ d).length (writeEvents (base ++ d) rest)).result,
            (runLoop c1 (base ++ d).length (writeEvents (base ++ d) rest)).config,
            (runLoop c1 (base ++ d).length (writeEvents (base ++ d) rest)).pos,
            evs1 ++ (runLoop c1 (base ++ d).length (writeEvents (base ++ d) rest)).events,
            readLines d ++
              (runLoop c1 (base ++ d).length (writeEvents (base ++ d) rest)).lines⟩ := by
        simp only [writeEvents, runLoop, hhe]
      obtain ⟨⟨rest0, hr0⟩, hok⟩ := ih (base ++ d) c1
      constructor
      · exact ⟨rest0, by
          rw [hstep]
          simp only [List.map_cons, List.flatten_cons, List.append_assoc, hr0]⟩
      · intro hres
        rw [hstep] at hres ⊢
        simp only [List.map_cons, List.flatten_cons]
        rw [hok hres]
    | ioError =>
      have hstep : runLoop c base.length (writeEvents base (d :: rest)) =
          ⟨.ioError, c1, (base ++ d).length, evs1, readLines d⟩ := by
        simp only [writeEvents, runLoop, hhe]
      rw [hstep]
      refine ⟨⟨(rest.map readLines).flatten, by simp⟩, fun hres => by cases hres⟩
    | configError m =>
      have hstep : runLoop c base.length (writeEvents base (d :: rest)) =
          ⟨.configError m, c1, (base ++ d).length, evs1, readLines d⟩ := by
        simp only [writeEvents, runLoop, hhe]
      rw [hstep]
      refine ⟨⟨(rest.map readLines).flatten, by simp⟩, fun hres => by cases hres⟩
    | panicked =>
      have hstep : runLoop c base.length (writeEvents base (d :: rest)) =
          ⟨.panicked, c1, (base ++ d).length, evs1, readLines d⟩ := by
        simp only [writeEvents, runLoop, hhe]
      rw [hstep]
      refine ⟨⟨(rest.map readLines).flatten, by simp⟩, fun hres => by cases hres⟩

/-- C7: the initial read offset equals the file's size at startup (seek
to end), and along an append-only history the lines ever handed to the
rules are exactly (up to an early panic: a prefix of) the lines of the
bytes appended after watch start — no pre-existing byte is ever read. -/
theorem c7_seek_end (c : Config) (init : List Char) (ds : List (List Char)) :
    (run ⟨true, init, writeEvents init ds⟩ c).initialPos = some init.length ∧
      (∃ rest, (run ⟨true, init, writeEvents init ds⟩ c).lines ++ rest
          = (ds.map readLines).flatten) ∧
      ((run ⟨true, init, writeEvents init ds⟩ c).result = .ok →
        (run ⟨true, init, writeEvents init ds⟩ c).lines = (ds.map readLines).flatten) := by
  obtain ⟨hpre, hok⟩ := runLoop_writeEvents ds init c
  unfold run
  simp only [if_true]
  exact ⟨trivial, hpre, hok⟩

theorem c7_seek_end_witness :
    (run ⟨true, "abc".data, writeEvents "abc".data ["d\n".data]⟩ cfgInert).initialPos
        = some 3 ∧
      (run ⟨true, "abc".data, writeEvents "abc".data ["d\n".data]⟩ cfgInert).lines
        = [['d']] := by
  refine ⟨(c7_seek_end cfgInert "abc".data ["d\n".data]).1, ?_⟩
  have h := (c7_seek_end cfgInert "abc".data ["d\n".data]).2.2 (by decide)
  rw [h]
  decide

/-- C8: on the spec's example buy line, the buy rule fires one event
carrying exactly the five captured fields `buyer=Chris`,
`object=Headhunter`, `price=40 exalted`, `league=Standard`,
`location=Hideout`. -/
theorem c8_capture_completeness :
    (handle_event ⟨.write, (buyLine ++ "\n").data, false⟩ cfgBuy 0).events =
        [MatchEvent.buyer "Chris".data "Headhunter".data "40 exalted".data
          "Standard".data "Hideout".data] ∧
      (handle_event ⟨.write, (buyLine ++ "\n").data, false⟩ cfgBuy 0).result = .ok := by
  decide

/-- Splitting the event list: when a prefix of the events is processed
without error, the loop continues through the remaining events from the
state the prefix left behind. -/
theorem runLoop_append_ok (xs ys : List FsEvent) :
    ∀ (c : Config) (p : Nat), (runLoop c p xs).result = .ok →
      runLoop c p (xs ++ ys) =
        ⟨(runLoop (runLoop c p xs).config (runLoop c p xs).pos ys).result,
          (runLoop (runLoop c p xs).config (runLoop c p xs).pos ys).config,
          (runLoop (runLoop c p xs).config (runLoop c p xs).pos ys).pos,
          (runLoop c p xs).events ++
            (runLoop (runLoop c p xs).config (runLoop c p xs).pos ys).events,
          (runLoop c p xs).lines ++
            (runLoop (runLoop c p xs).config (runLoop c p xs).pos ys).lines⟩ := by
  induction xs with
  | nil =>
    intro c p _
    simp [runLoop]
  | cons ev xs ih =>
    intro c p hok
    rcases hhe : handle_event ev c p with ⟨r1, c1, p1, e1, l1⟩
    cases r1 with
    | ok =>
      have hx : runLoop c p (ev :: xs) =
          ⟨(runLoop c1 p1 xs).result, (runLoop c1 p1 xs).config, (runLoop c1 p1 xs).pos,
            e1 ++ (runLoop c1 p1 xs).events, l1 ++ (runLoop c1 p1 xs).lines⟩ := by
        simp only [runLoop, hhe]
      have hok2 : (runLoop c1 p1 xs).result = .ok := by
        rw [hx] at hok
        exact hok
      have hxy : runLoop c p ((ev :: xs) ++ ys) =
          ⟨(runLoop c1 p1 (xs ++ ys)).result, (runLoop c1 p1 (xs ++ ys)).config,
            (runLoop c1 p1 (xs ++ ys)).pos, e1 ++ (runLoop c1 p1 (xs ++ ys)).events,
            l1 ++ (runLoop c1 p1 (xs ++ ys)).lines⟩ := by
        simp only [List.cons_append, runLoop, hhe]
        rfl
      rw [hxy, ih c1 p1 hok2, hx]
      simp [List.append_assoc]
    | ioError =>
      exfalso
      simp only [runLoop, hhe] at hok
      exact Outcome.noConfusion hok
    | configError m =>
      exfalso
      simp only [runLoop, hhe] at hok
      exact Outcome.noConfusion hok
    | panicked =>
      exfalso
      simp only [runLoop, hhe] at hok
      exact Outcome.noConfusion hok

/-- C9: an IO error while reading a delta is fatal — `run` returns the
`IoError`, the loop stops there (events delivered after it are never
processed, no retry), and only the notifications fired before the failing
wake-up exist. -/
theorem c9_io_error_fatal (c : Config) (w : World) (pre post : List FsEvent) (e : FsEvent)
    (hp : w.pathExists = true)
    (hev : w.events = pre ++ e :: post)
    (hk : e.kind = .write) (hio : e.ioError = true)
    (hok : (runLoop c w.initialContent.length pre).result = .ok) :
    (run w c).result = .ioError ∧
      (run w c).events = (runLoop c w.initialContent.length pre).events ∧
      (run w c).lines = (runLoop c w.initialContent.length pre).lines := by
  obtain ⟨k, nc, io⟩ := e
  simp only at hk hio
  subst hk; subst hio
  have hstop : ∀ (c2 : Config) (p2 : Nat),
      runLoop c2 p2 (⟨.write, nc, true⟩ :: post) = ⟨.ioError, c2, p2, [], []⟩ := by
    intro c2 p2
    simp only [runLoop, handle_event, if_true]
  unfold run
  rw [hp, hev]
  rw [if_pos rfl]
  rw [runLoop_append_ok pre (⟨.write, nc, true⟩ :: post) c w.initialContent.length hok]
  rw [hstop]
  simp

theorem c9_io_error_fatal_witness :
    (run ⟨true, [], [⟨.write, "x".data, true⟩]⟩ cfgInert).result = .ioError ∧
      (run ⟨true, [], [⟨.write, "x".data, true⟩]⟩ cfgInert).events =
        (runLoop cfgInert (([] : List Char)).length []).events ∧
      (run ⟨true, [], [⟨.write, "x".data, true⟩]⟩ cfgInert).lines =
        (runLoop cfgInert (([] : List Char)).length []).lines :=
  c9_io_error_fatal cfgInert ⟨true, [], [⟨.write, "x".data, true⟩]⟩ [] []
    ⟨.write, "x".data, true⟩ rfl rfl rfl rfl rfl

/-- C10: an event leaves `logfile`, `maps` and both pattern source
strings unchanged; the only mutation is populating an empty
compiled-pattern cache with the compilation of its unchanged source, a
populated cache never changes, and a non-`Write` event reads nothing,
changes nothing and fires nothing. -/
theorem c10_frame (ev : FsEvent) (c : Config) (p : Nat) :
    CachePreserve c (handle_event ev c p).config ∧
      (∀ t, c.maps_regex_compiled = some t →
        (handle_event ev c p).config.maps_regex_compiled = some t) ∧
      (∀ t, c.buy_regex_compiled = some t →
        (handle_event ev c p).config.buy_regex_compiled = some t) ∧
      (ev.kind ≠ .write → handle_event ev c p = ⟨.ok, c, p, [], []⟩) := by
  have hcp : CachePreserve c (handle_event ev c p).config := by
    obtain ⟨k, nc, io⟩ := ev
    cases k with
    | write =>
      cases io with
      | false => exact processLines_cache (readLines (nc.drop p)) c
      | true => exact CachePreserve.refl c
    | other => exact CachePreserve.refl c
  refine ⟨hcp, ?_, ?_, ?_⟩
  · intro t ht
    rcases hcp.2.2.2.2.1 with hsame | ⟨hnone, -⟩
    · rw [hsame, ht]
    · rw [ht] at hnone
      cases hnone
  · intro t ht
    rcases hcp.2.2.2.2.2 with hsame | ⟨hnone, -⟩
    · rw [hsame, ht]
    · rw [ht] at hnone
      cases hnone
  · intro hk
    obtain ⟨k, nc, io⟩ := ev
    cases k with
    | write => exact absurd rfl hk
    | other => rfl

theorem c10_frame_witness :
    handle_event ⟨.other, "x".data, false⟩ cfgInert 0 = ⟨.ok, cfgInert, 0, [], []⟩ ∧
      (handle_event ⟨.write, "x\n".data, false⟩ cfgPre 0).config.maps_regex_compiled
        = some [TItem.lit '@'] :=
  ⟨(c10_frame ⟨.other, "x".data, false⟩ cfgInert 0).2.2.2 (by decide),
    (c10_frame ⟨.write, "x\n".data, false⟩ cfgPre 0).2.1 [TItem.lit '@'] rfl⟩

end Brickatlas
